import Mathlib

/-!
Verification of the data-batching, training-loop and evaluation helpers of the
Long-Document-Summarizer repository (`src/utils/helpers.py`), via a shallow
embedding in Lean.

Modelling conventions:
* A `(text, summary)` pair is a pair of strings; `count_words` mirrors Python's
  `len(text.split())` (split on whitespace runs, ignoring empty fragments).
* Python's stable `sorted(..., key=...)` is modelled by `List.insertionSort`
  with the non-strict key comparison, which is stable in the same way.
* The tokenizer/encoder collaborators are abstracted as functions; an encoded
  batch (`BatchEncoding` with `input_ids` and `labels`) is the `Enc` structure.
* `numpy` object arrays holding either a stored value or the scalar `0`
  placeholder are modelled as lists of `Option`; the truthiness test
  `if cached[it]:` is `Option.isSome` (a populated slot always holds a
  non-empty `BatchEncoding`, which is truthy).
* `StopIteration` and Python exceptions are modelled with `Option` / `Except`.
* Machine integers are `Nat`/`Int`; Python's floor division `//` on `int` is
  `Nat.div` on naturals and `Int.fdiv` in general.
-/

namespace LDS

/-- A `(text, summary)` pair, as stored in the dataset. -/
abbrev Pair := String × String

/-- Number of maximal non-whitespace runs in a character list: the length of
Python's no-argument `str.split()`.  The boolean records whether the previous
character was inside a word. -/
def wordsAux : List Char → Bool → Nat
  | [], _ => 0
  | c :: cs, inWord =>
    if c.isWhitespace then wordsAux cs false
    else (if inWord then 0 else 1) + wordsAux cs true

/-- `count_words` from `helpers.py`: `len(text.split())`. -/
def count_words (text : String) : Nat :=
  wordsAux text.toList false

/-- The sort key used in `SummarizationDataset.__init__`:
compare pairs by word count of the text component. -/
def wcLE (p q : Pair) : Prop := count_words p.1 ≤ count_words q.1

instance : DecidableRel wcLE := fun _ _ => Nat.decLe _ _

instance : IsTotal Pair wcLE := ⟨fun _ _ => Nat.le_total _ _⟩

instance : IsTrans Pair wcLE := ⟨fun _ _ _ => Nat.le_trans⟩

/-- `sorted(texts_summaries, key=lambda x: count_words(x[0]))` — Python's
stable sort by the word-count key. -/
def sortPairs (pairs : List Pair) : List Pair :=
  List.insertionSort wcLE pairs

/-- An encoded batch (`BatchEncoding`): text encodings (`input_ids`) merged
with the transformed summary ids under the key `labels`. -/
structure Enc where
  input_ids : List (List Int)
  labels : List (List Int)
deriving DecidableEq

/-- The batches built in `SummarizationDataset.__init__`:
`batch = texts_summaries[i*batch_size:(i+1)*batch_size]` for
`i in range(num_batches)` with `num_batches = num_texts // batch_size`. -/
def batchesOf (sorted : List Pair) (batch_size : Nat) : List (List Pair) :=
  (List.range (sorted.length / batch_size)).map
    (fun i => (sorted.drop (i * batch_size)).take batch_size)

/-- State of a `SummarizationDataset`.  `text_batches` entries are `none`
where the code stored the scalar `0` (a dropped raw batch); `cached` is
`none` when `use_cache=False`, and otherwise a list whose `none` entries are
the `0` placeholders of `np.zeros(..., dtype=object)`.  `it` is `none`
before the first `__iter__` call. -/
structure SummarizationDataset where
  num_batches : Nat
  text_batches : List (Option (List Pair))
  cached : Option (List (Option Enc))
  shuffle : Bool
  it : Option Nat
deriving DecidableEq

/-- `SummarizationDataset.__init__` for a positive batch size (the checked
constructor `mkDatasetChecked` below models the failure behaviour for
non-positive batch sizes).  The `context_size` argument only parametrises
the tokenizer collaborator, which is abstracted into the encoding function,
and the `seed` argument only touches the global random source, modelled
separately (`npSeed`). -/
def mkDataset (pairs : List Pair) (batch_size : Nat) (use_cache shuffle : Bool) :
    SummarizationDataset :=
  let sorted := sortPairs pairs
  let n := sorted.length / batch_size
  { num_batches := n
    text_batches := (batchesOf sorted batch_size).map some
    cached := if use_cache then some (List.replicate n none) else none
    shuffle := shuffle
    it := none }

/-- `arr[permutation]` on a numpy array: fancy indexing by a list of indices. -/
def permApply (dflt : α) (perm : List Nat) (l : List α) : List α :=
  perm.map (fun i => l.getD i dflt)

/-- `SummarizationDataset.__iter__`, with the permutation drawn from the
random source passed in explicitly: resets the cursor and, if shuffling,
applies the same permutation to the batch array and the cache array. -/
def iterOp (perm : List Nat) (d : SummarizationDataset) : SummarizationDataset :=
  if d.shuffle then
    { d with
      it := some 0
      text_batches := permApply none perm d.text_batches
      cached := d.cached.map (permApply none perm) }
  else
    { d with it := some 0 }

/-- `SummarizationDataset.__next__`, with the composite
encode-texts-and-tokenize-summaries step abstracted as `enc`.
Returns `none` for `StopIteration`, and otherwise the yielded encoded batch,
the successor state, and the number of encoder invocations performed
(`0` on a cache hit, `1` on a miss) — the call-counting instrumentation the
spec's cache-hit property asks for. -/
def nextOp (enc : List Pair → Enc) (d : SummarizationDataset) :
    Option (Enc × SummarizationDataset × Nat) :=
  match d.it with
  | none => none
  | some it =>
    if it = d.num_batches then none
    else
      match d.cached with
      | some c =>
        match c.getD it none with
        | some e => some (e, { d with it := some (it + 1) }, 0)
        | none =>
          let e := enc ((d.text_batches.getD it none).getD [])
          some (e, { d with
            it := some (it + 1)
            cached := some (c.set it (some e))
            text_batches := d.text_batches.set it none }, 1)
      | none =>
        let e := enc ((d.text_batches.getD it none).getD [])
        some (e, { d with it := some (it + 1) }, 1)

/-- Repeated `__next__` calls with the given fuel, collecting the yielded
encodings and the total number of encoder invocations. -/
def goTraverse (enc : List Pair → Enc) : Nat → SummarizationDataset →
    List Enc × SummarizationDataset × Nat
  | 0, d => ([], d, 0)
  | fuel + 1, d =>
    match nextOp enc d with
    | none => ([], d, 0)
    | some (e, d1, k) =>
      let r := goTraverse enc fuel d1
      (e :: r.1, r.2.1, k + r.2.2)

/-- One full traversal of the dataset: `__iter__` followed by `__next__`
until `StopIteration` (the cursor starts at `0`, so `num_batches` steps of
fuel always suffice). -/
def traverse (enc : List Pair → Enc) (perm : List Nat) (d : SummarizationDataset) :
    List Enc × SummarizationDataset × Nat :=
  goTraverse enc d.num_batches (iterOp perm d)

/-! ### The concrete encoding step (`SummarizationDataset.__next__`, miss branch) -/

/-- The tokenizer/encoder collaborators of the dataset: `tokenize` is
`tokenizer(summaries, padding=True, max_length=context_size, truncation=True,
return_tensors="pt")["input_ids"]` (padding/truncation folded into the
abstract function), `pad_token_id` the tokenizer's pad id, and `encodeTexts`
the `input_ids` produced by `self.encoder(texts)`. -/
structure Tok where
  tokenize : List String → List (List Int)
  pad_token_id : Int
  encodeTexts : List String → List (List Int)

/-- Lines 190–191 of `helpers.py`:
`filt = summ_encodings == tokenizer.pad_token_id; summ_encodings[filt] = -100`
— elementwise masked assignment on the summary-id matrix. -/
def maskPad (padId : Int) (ids : List (List Int)) : List (List Int) :=
  ids.map (fun row => row.map (fun x => if x = padId then -100 else x))

/-- The cache-miss body of `__next__`: split the batch into texts and
summaries, encode the texts, tokenize the summaries, mask the pad ids and
merge everything into one `BatchEncoding`. -/
def encodeBatch (tk : Tok) (batch : List Pair) : Enc :=
  { input_ids := tk.encodeTexts (batch.map Prod.fst)
    labels := maskPad tk.pad_token_id (tk.tokenize (batch.map Prod.snd)) }

/-! ### The batch/cache index-correspondence invariant -/

/-- Consistency of cache slot `i` with the batch logically at index `i`
(`g` lists the batch contents per slot, retained by the model even after the
code drops the raw pairs on caching): either the slot is still empty and the
raw batch is stored, or the slot holds exactly the encoding of that batch and
the raw batch has been dropped (`text_batches[i] = 0`). -/
@[reducible] def SlotOk (enc : List Pair → Enc) (tb : List (Option (List Pair)))
    (c : List (Option Enc)) (g : List (List Pair)) (i : Nat) : Prop :=
  (c.getD i none = none ∧ tb.getD i none = some (g.getD i [])) ∨
  (c.getD i none = some (enc (g.getD i [])) ∧ tb.getD i none = none)

/-- The dataset invariant: batch array, cache array and the logical batch
list all have the same length, and every cache slot is consistent with the
batch logically at its index. -/
def CacheInv (enc : List Pair → Enc) (d : SummarizationDataset)
    (g : List (List Pair)) : Prop :=
  d.text_batches.length = g.length ∧
  d.num_batches = g.length ∧
  ∀ c, d.cached = some c →
    c.length = g.length ∧ ∀ i, i < g.length → SlotOk enc d.text_batches c g i

/-- The dataset state of a cached, unshuffled traversal after `j` steps:
the first `j` raw batches have been dropped (`0`-ed) and their encodings
cached; the cursor sits at `j`. -/
def midState (enc : List Pair → Enc) (bl : List (List Pair)) (j : Nat) :
    SummarizationDataset :=
  { num_batches := bl.length
    text_batches := List.replicate j none ++ (bl.drop j).map some
    cached := some ((bl.take j).map (fun x => some (enc x)) ++
      List.replicate (bl.length - j) none)
    shuffle := false
    it := some j }

/-! ### The global `np.random` state -/

/-- `np.random.seed(seed)`: with an integer seed the single global state is
reset to a value determined by the seed alone; with `None` it is re-seeded
unpredictably (modelled as keeping the unknown ambient state). -/
def npSeed (seed : Option Nat) (g : Nat) : Nat :=
  seed.getD g

/-- `np.random.permutation(n)`: a pseudo-random draw from the global state.
The concrete pseudo-random function is irrelevant to the claims; what the
model keeps is its structure: the permutation returned is a deterministic
function of the single shared global state, and the draw advances that
state.  (Here: the rotation of `range n` by the state, then `state + 1`.) -/
def npPermutation (n : Nat) (g : Nat) : List Nat × Nat :=
  ((List.range n).map (fun i => (i + g) % n), g + 1)

/-- Construct a shuffled dataset (which runs `np.random.seed(seed)`) and
immediately start a traversal, drawing the shuffle permutation from the
global state; returns the shuffled dataset and the new global state. -/
def constructAndShuffle (pairs : List Pair) (b : Nat) (seed : Option Nat)
    (g : Nat) : SummarizationDataset × Nat :=
  let g1 := npSeed seed g
  let d := mkDataset pairs b false true
  let pg := npPermutation d.num_batches g1
  (iterOp pg.1 d, pg.2)

/-! ### The training loop (`train_model`) -/

/-- A caught Python exception: its type and its message. -/
structure TrainError where
  ty : String
  msg : String
deriving DecidableEq

/-- The message printed by `train_model`'s `except` clause. -/
def logMsg (e : TrainError) : String :=
  "Encountered exception of type " ++ e.ty ++ ": " ++ e.msg ++
    "\nTraining terminated"

/-- The inner batch loop of one epoch: `step i` is the `try` block for batch
`i` (device transfer, forward loss, `zero_grad`, backward, optimizer step),
returning the batch loss or the caught exception.  Accumulates
`epoch_loss`. -/
def batchLoop (step : Nat → Except TrainError ℚ) :
    List Nat → ℚ → Except TrainError ℚ
  | [], acc => .ok acc
  | i :: is, acc =>
    match step i with
    | .error err => .error err
    | .ok l => batchLoop step is (acc + l)

/-- The epoch loop of `train_model`: on a per-batch exception, print the log
message and return the losses of the fully completed epochs; otherwise append
`epoch_loss / num_batches` and continue.  The second component collects the
exception log lines. -/
def epochsLoop (step : Nat → Nat → Except TrainError ℚ) (numBatches : Nat) :
    List Nat → List ℚ → List ℚ × List String
  | [], losses => (losses, [])
  | e :: es, losses =>
    match batchLoop (step e) (List.range numBatches) 0 with
    | .error err => (losses, [logMsg err])
    | .ok total => epochsLoop step numBatches es (losses ++ [total / (numBatches : ℚ)])

/-- `train_model`: `step e i` abstracts the processing of batch `i` in epoch
`e` (the model/optimizer state threading is internal to it).  Returns the
per-epoch mean losses and the exception log. -/
def train_model (step : Nat → Nat → Except TrainError ℚ)
    (numBatches epochs : Nat) : List ℚ × List String :=
  epochsLoop step numBatches (List.range epochs) []

/-- The loss recorded for a successful step (used to state what the mean of a
completed epoch is). -/
def okD (x : Except TrainError ℚ) : ℚ :=
  x.toOption.getD 0

/-- Total loss accumulated over one fully successful epoch. -/
def epochTotal (step : Nat → Nat → Except TrainError ℚ) (numBatches e : Nat) : ℚ :=
  ((List.range numBatches).map (fun i => okD (step e i))).sum

/-! ### The evaluator -/

/-- State of an `Evaluator`: the generation pipelines, the held-out texts,
the reference summaries, and the accumulated generated summaries. -/
structure EvaluatorState where
  pipelines : List (List String → List String)
  texts : List String
  summaries : List String
  generated_summaries : List String

/-- `Evaluator.generate_summaries` (the wall-clock timing is dropped): for
each pipeline in registration order, extend the accumulated summaries with
the pipeline's outputs on the held-out texts. -/
def generate_summaries (ev : EvaluatorState) : EvaluatorState :=
  { ev with generated_summaries :=
      ev.generated_summaries ++ (ev.pipelines.map (fun pl => pl ev.texts)).flatten }

/-- Python's in-place list repetition `l *= n`. -/
def listIMul (l : List α) (n : Nat) : List α :=
  (List.replicate n l).flatten

/-- `metric.reshape((p, -1)).mean(dim=1)`: torch raises unless `p > 0`, the
element count is positive and divisible by `p`; otherwise each of the `p`
rows of length `len / p` is averaged. -/
def reshapeMean (p : Nat) (metric : List ℚ) : Option (List ℚ) :=
  if p = 0 ∨ metric.length = 0 ∨ metric.length % p ≠ 0 then none
  else
    some ((List.range p).map (fun r =>
      ((metric.drop (r * (metric.length / p))).take (metric.length / p)).sum /
        ((metric.length / p : Nat) : ℚ)))

/-- The list comprehension over the metric arrays: each reshape-and-mean may
raise (see `reshapeMean`), in which case the whole call raises. -/
def optionMap (f : α → Option β) : List α → Option (List β)
  | [] => some []
  | x :: l =>
    match f x, optionMap f l with
    | some y, some ys => some (y :: ys)
    | _, _ => none

/-- `Evaluator.get_bertscore`, with the similarity scorer abstracted as
`score` (returning the per-pair metric arrays).  Note the aliasing in the
source: `summaries = self.summaries` followed by `summaries *= num_pipelines`
mutates the stored reference-summary list in place, so the state's
`summaries` field is updated to the replicated list. -/
def get_bertscore (score : List String → List String → List (List ℚ))
    (ev : EvaluatorState) : EvaluatorState × Option (List (List ℚ)) :=
  let ev1 := if ev.generated_summaries = [] then generate_summaries ev else ev
  let np := ev1.pipelines.length
  let refs := listIMul ev1.summaries np
  let ev2 := { ev1 with summaries := refs }
  let metrics := score ev2.generated_summaries refs
  (ev2, optionMap (reshapeMean np) metrics)

/-! ### The checked constructor (failure behaviour of `__init__`) -/

/-- `SummarizationDataset.__init__` including its failure behaviour for an
arbitrary integer batch size: `num_texts // batch_size` raises
`ZeroDivisionError` when the batch size is `0` (Python `//` is floor
division, `Int.fdiv`), and `np.zeros(num_batches)` raises `ValueError` when
`num_batches` is negative. -/
def mkDatasetChecked (pairs : List Pair) (batch_size : Int)
    (use_cache shuffle : Bool) : Except String SummarizationDataset :=
  if batch_size = 0 then
    .error "ZeroDivisionError: integer division or modulo by zero"
  else if Int.fdiv (pairs.length : Int) batch_size < 0 then
    .error "ValueError: negative dimensions are not allowed"
  else
    .ok (mkDataset pairs batch_size.toNat use_cache shuffle)

/-- Whether construction raised (no dataset object was produced). -/
def isRaised (x : Except String SummarizationDataset) : Bool :=
  match x with
  | .error _ => true
  | .ok _ => false

/-! ### Per-batch average word count -/

/-- Average word count of the texts of a batch. -/
def avgWC (batch : List Pair) : ℚ :=
  (((batch.map (fun p => count_words p.1)).sum : Nat) : ℚ) / ((batch.length : Nat) : ℚ)

/-! ## Batch partition (claim C3) -/

/-- Each constructed batch slice `sorted[i*b:(i+1)*b]` with `i < N // b` has
exactly `b` elements. -/
theorem batch_slice_length (l : List Pair) (b i : Nat) (hi : i < l.length / b) :
    ((l.drop (i * b)).take b).length = b := by
  have h1 : (i + 1) * b ≤ (l.length / b) * b :=
    Nat.mul_le_mul_right _ (Nat.succ_le_of_lt hi)
  have h2 : (l.length / b) * b ≤ l.length := Nat.div_mul_le_self _ _
  have h3 : (i + 1) * b = i * b + b := Nat.succ_mul i b
  simp only [List.length_take, List.length_drop]
  omega

/-- Concatenating the first `n` slices of width `b` recovers the first
`n * b` elements. -/
theorem flatten_batches_aux (l : List Pair) (b : Nat) :
    ∀ n : Nat,
      ((List.range n).map (fun i => (l.drop (i * b)).take b)).flatten =
        l.take (n * b)
  | 0 => by simp
  | n + 1 => by
    rw [List.range_succ, List.map_append, List.flatten_append,
      flatten_batches_aux l b n]
    simp [Nat.succ_mul, List.take_add]

/-- Claim C3: for every list of `N` pairs and every batch size `b > 0`, the
constructed dataset has length `N / b`, every stored batch holds exactly `b`
pairs, and the batches together cover exactly the first `(N / b) * b` sorted
pairs — the `N mod b` leftover pairs are dropped and never form a partial
batch. -/
theorem c3_batch_partition (pairs : List Pair) (b : Nat) (uc sh : Bool)
    (_hb : 0 < b) :
    (mkDataset pairs b uc sh).num_batches = pairs.length / b ∧
    (mkDataset pairs b uc sh).text_batches.length = pairs.length / b ∧
    (∀ ob ∈ (mkDataset pairs b uc sh).text_batches,
      ∃ batch, ob = some batch ∧ batch.length = b) ∧
    (batchesOf (sortPairs pairs) b).flatten =
      (sortPairs pairs).take ((pairs.length / b) * b) := by
  have hlen : (sortPairs pairs).length = pairs.length :=
    List.length_insertionSort _ _
  refine ⟨by simp [mkDataset, hlen], by simp [mkDataset, batchesOf, hlen], ?_, ?_⟩
  · intro ob hob
    simp only [mkDataset, List.mem_map] at hob
    obtain ⟨batch, hmem, rfl⟩ := hob
    refine ⟨batch, rfl, ?_⟩
    simp only [batchesOf, List.mem_map, List.mem_range] at hmem
    obtain ⟨i, hi, rfl⟩ := hmem
    exact batch_slice_length _ b i hi
  · rw [batchesOf, flatten_batches_aux, hlen]

/-- Witness for claim C3 at a concrete input: 3 pairs, batch size 2 gives one
full batch of 2 pairs; the third pair is dropped. -/
theorem c3_batch_partition_witness :
    0 < 2 ∧
    ((mkDataset [("a", "x"), ("b c", "y"), ("d e f", "z")] 2 false false).num_batches =
        [("a", "x"), ("b c", "y"), ("d e f", "z")].length / 2 ∧
      (mkDataset [("a", "x"), ("b c", "y"), ("d e f", "z")] 2 false false).text_batches.length =
        [("a", "x"), ("b c", "y"), ("d e f", "z")].length / 2 ∧
      (∀ ob ∈ (mkDataset [("a", "x"), ("b c", "y"), ("d e f", "z")] 2 false false).text_batches,
        ∃ batch, ob = some batch ∧ batch.length = 2) ∧
      (batchesOf (sortPairs [("a", "x"), ("b c", "y"), ("d e f", "z")]) 2).flatten =
        (sortPairs [("a", "x"), ("b c", "y"), ("d e f", "z")]).take
          (([("a", "x"), ("b c", "y"), ("d e f", "z")].length / 2) * 2)) :=
  ⟨by decide,
    c3_batch_partition [("a", "x"), ("b c", "y"), ("d e f", "z")] 2 false false
      (by decide)⟩

/-! ## Sorted batching gives non-decreasing batch averages (claim C7) -/

/-- A lower bound on a sum: if `a` bounds every element from below then
`|B| * a ≤ sum B`. -/
theorem length_mul_le_sum (B : List Nat) (a : Nat) (h : ∀ c ∈ B, a ≤ c) :
    B.length * a ≤ B.sum := by
  induction B with
  | nil => simp
  | cons c cs ih =>
    have h1 : a ≤ c := h c (by simp)
    have h2 : cs.length * a ≤ cs.sum := ih (fun x hx => h x (by simp [hx]))
    simp only [List.length_cons, List.sum_cons, Nat.succ_mul]
    omega

/-- If every element of `A` is at most every element of `B` then
`|B| * sum A ≤ |A| * sum B`. -/
theorem cross_sum_le (A B : List Nat) (h : ∀ a ∈ A, ∀ c ∈ B, a ≤ c) :
    B.length * A.sum ≤ A.length * B.sum := by
  induction A with
  | nil => simp
  | cons a as ih =>
    have h1 : B.length * a ≤ B.sum := length_mul_le_sum B a (h a (by simp))
    have h2 : B.length * as.sum ≤ as.length * B.sum :=
      ih (fun x hx => h x (by simp [hx]))
    simp only [List.sum_cons, List.length_cons, Nat.mul_add, Nat.succ_mul, Nat.add_mul]
    omega

/-- In a list sorted by word count, every element of slice `i` has word count
at most that of every element of slice `i + 1`. -/
theorem sorted_chunk_le (L : List Pair) (hL : List.Pairwise wcLE L) (b i : Nat) :
    ∀ p ∈ (L.drop (i * b)).take b, ∀ q ∈ (L.drop ((i + 1) * b)).take b,
      count_words p.1 ≤ count_words q.1 := by
  intro p hp q hq
  have hT : (L.drop (i * b)).Pairwise wcLE :=
    List.Pairwise.sublist (List.drop_sublist _ _) hL
  have hT2 : ((L.drop (i * b)).take b ++ (L.drop (i * b)).drop b).Pairwise wcLE := by
    rw [List.take_append_drop]; exact hT
  have hsplit := (List.pairwise_append.mp hT2).2.2
  have hdd : (L.drop (i * b)).drop b = L.drop ((i + 1) * b) := by
    rw [List.drop_drop, Nat.succ_mul, Nat.add_comm]
  have hq' : q ∈ (L.drop (i * b)).drop b := by
    rw [hdd]; exact List.take_subset _ _ hq
  exact hsplit p hp q hq'

/-- The `i`-th stored batch, as a slice of the sorted pair list. -/
theorem batchesOf_getD (L : List Pair) (b i : Nat) (hi : i < L.length / b) :
    (batchesOf L b).getD i [] = (L.drop (i * b)).take b := by
  have hlen : (batchesOf L b).length = L.length / b := by simp [batchesOf]
  rw [List.getD_eq_getElem _ _ (by rw [hlen]; exact hi)]
  simp [batchesOf]

/-- Claim C7: before any shuffled traversal, the per-batch average text word
counts of a constructed dataset are non-decreasing in the batch index. -/
theorem c7_batch_averages_monotone (pairs : List Pair) (b i : Nat)
    (hi : i + 1 < (batchesOf (sortPairs pairs) b).length) :
    avgWC ((batchesOf (sortPairs pairs) b).getD i []) ≤
      avgWC ((batchesOf (sortPairs pairs) b).getD (i + 1) []) := by
  have hlen : (batchesOf (sortPairs pairs) b).length = (sortPairs pairs).length / b := by
    simp [batchesOf]
  have hi1 : i + 1 < (sortPairs pairs).length / b := hlen ▸ hi
  have hi0 : i < (sortPairs pairs).length / b := Nat.lt_of_succ_lt hi1
  have hb : 0 < b := by
    rcases Nat.eq_zero_or_pos b with h0 | h
    · rw [h0, Nat.div_zero] at hi1; omega
    · exact h
  rw [batchesOf_getD _ b i hi0, batchesOf_getD _ b (i + 1) hi1]
  have hlA := batch_slice_length (sortPairs pairs) b i hi0
  have hlB := batch_slice_length (sortPairs pairs) b (i + 1) hi1
  have hsorted : List.Pairwise wcLE (sortPairs pairs) :=
    List.sorted_insertionSort wcLE pairs
  have hcross :
      ∀ a ∈ (((sortPairs pairs).drop (i * b)).take b).map (fun p => count_words p.1),
      ∀ c ∈ (((sortPairs pairs).drop ((i + 1) * b)).take b).map (fun p => count_words p.1),
        a ≤ c := by
    intro a ha c hc
    simp only [List.mem_map] at ha hc
    obtain ⟨p, hp, rfl⟩ := ha
    obtain ⟨q, hq, rfl⟩ := hc
    exact sorted_chunk_le _ hsorted b i p hp q hq
  have hsum :
      ((((sortPairs pairs).drop (i * b)).take b).map (fun p => count_words p.1)).sum ≤
        ((((sortPairs pairs).drop ((i + 1) * b)).take b).map (fun p => count_words p.1)).sum := by
    have h := cross_sum_le _ _ hcross
    rw [List.length_map, List.length_map, hlA, hlB] at h
    exact Nat.le_of_mul_le_mul_left h hb
  unfold avgWC
  rw [hlA, hlB, div_le_div_iff_of_pos_right (by exact_mod_cast hb)]
  exact_mod_cast hsum

/-- Witness for claim C7 at a concrete input: 4 pairs, batch size 2. -/
theorem c7_batch_averages_monotone_witness :
    0 + 1 < (batchesOf (sortPairs [("a b", "x"), ("c", "y"), ("d e f", "z"), ("g", "w")]) 2).length ∧
    avgWC ((batchesOf (sortPairs [("a b", "x"), ("c", "y"), ("d e f", "z"), ("g", "w")]) 2).getD 0 []) ≤
      avgWC ((batchesOf (sortPairs [("a b", "x"), ("c", "y"), ("d e f", "z"), ("g", "w")]) 2).getD (0 + 1) []) :=
  ⟨by decide,
    c7_batch_averages_monotone [("a b", "x"), ("c", "y"), ("d e f", "z"), ("g", "w")] 2 0
      (by decide)⟩

/-! ## Training aborts on a per-batch exception (claim C1) -/

/-- The batch loop processes a concatenation left to right, propagating the
first caught exception. -/
theorem batchLoop_append (step : Nat → Except TrainError ℚ) (is js : List Nat)
    (acc : ℚ) :
    batchLoop step (is ++ js) acc =
      match batchLoop step is acc with
      | .error err => .error err
      | .ok t => batchLoop step js t := by
  induction is generalizing acc with
  | nil => simp [batchLoop]
  | cons i is ih =>
    rw [List.cons_append]
    cases hstep : step i with
    | error err => simp [batchLoop, hstep]
    | ok l => simp [batchLoop, hstep, ih]

/-- When every batch of the list succeeds, the batch loop returns the
accumulated total of the recorded losses. -/
theorem batchLoop_all_ok (step : Nat → Except TrainError ℚ) (is : List Nat)
    (h : ∀ i ∈ is, ∃ q, step i = .ok q) (acc : ℚ) :
    batchLoop step is acc = .ok (acc + (is.map (fun i => okD (step i))).sum) := by
  induction is generalizing acc with
  | nil => simp [batchLoop]
  | cons i is ih =>
    obtain ⟨q, hq⟩ := h i (by simp)
    have h1 : batchLoop step (i :: is) acc = batchLoop step is (acc + q) := by
      simp [batchLoop, hq]
    rw [h1, ih (fun j hj => h j (by simp [hj])) (acc + q)]
    simp [okD, hq, Except.toOption, add_assoc]

/-- When batch `i` of the epoch raises and all earlier batches succeed, the
epoch's batch loop surfaces exactly that exception. -/
theorem batchLoop_error (step : Nat → Except TrainError ℚ) (numBatches i : Nat)
    (err : TrainError) (hi : i < numBatches) (herr : step i = .error err)
    (hok : ∀ j, j < i → ∃ q, step j = .ok q) (acc : ℚ) :
    batchLoop step (List.range numBatches) acc = .error err := by
  obtain ⟨k, hk⟩ : ∃ k, numBatches = (i + 1) + k := ⟨numBatches - (i + 1), by omega⟩
  rw [hk, List.range_add, batchLoop_append, List.range_succ, batchLoop_append]
  rw [batchLoop_all_ok step (List.range i) (fun j hj => hok j (List.mem_range.mp hj)) acc]
  simp [batchLoop, herr]

/-- While every batch of every epoch in `es` succeeds, the epoch loop records
one mean loss per epoch, in order. -/
theorem epochsLoop_all_ok (step : Nat → Nat → Except TrainError ℚ) (nb : Nat)
    (es fs : List Nat) (losses : List ℚ)
    (h : ∀ e ∈ es, ∀ i, i < nb → ∃ q, step e i = .ok q) :
    epochsLoop step nb (es ++ fs) losses =
      epochsLoop step nb fs
        (losses ++ es.map (fun e => epochTotal step nb e / (nb : ℚ))) := by
  induction es generalizing losses with
  | nil => simp
  | cons e es ih =>
    rw [List.cons_append]
    have hb := batchLoop_all_ok (step e)
      (List.range nb) (fun i hi => h e (by simp) i (List.mem_range.mp hi)) 0
    have h1 : epochsLoop step nb (e :: (es ++ fs)) losses =
        epochsLoop step nb (es ++ fs)
          (losses ++ [(0 + ((List.range nb).map (fun i => okD (step e i))).sum) / (nb : ℚ)]) := by
      simp only [epochsLoop, hb]
    rw [h1, ih _ (fun f hf => h f (by simp [hf]))]
    simp [epochTotal]

/-- Claim C1: if processing batch `i` of epoch `e` raises (device transfer,
forward loss, backward pass, or optimizer step — the body of the `try`
block), while all earlier batches of that epoch and all batches of all
earlier epochs succeed, then the exception is caught and logged with its
type and message, no exception propagates, and `train_model` immediately
returns the ordered mean losses of exactly the `e` fully completed epochs —
no partial loss is recorded for the epoch in progress. -/
theorem c1_exception_aborts_training (step : Nat → Nat → Except TrainError ℚ)
    (numBatches epochs e i : Nat) (err : TrainError)
    (he : e < epochs) (hi : i < numBatches)
    (herr : step e i = .error err)
    (hprevB : ∀ j, j < i → ∃ q, step e j = .ok q)
    (hprevE : ∀ f, f < e → ∀ j, j < numBatches → ∃ q, step f j = .ok q) :
    train_model step numBatches epochs =
      ((List.range e).map (fun f => epochTotal step numBatches f / (numBatches : ℚ)),
        [logMsg err]) ∧
    (train_model step numBatches epochs).1.length = e := by
  obtain ⟨k, hk⟩ : ∃ k, epochs = (e + 1) + k := ⟨epochs - (e + 1), by omega⟩
  have hmain : train_model step numBatches epochs =
      ((List.range e).map (fun f => epochTotal step numBatches f / (numBatches : ℚ)),
        [logMsg err]) := by
    rw [train_model, hk, List.range_add, List.range_succ, List.append_assoc]
    rw [epochsLoop_all_ok step numBatches (List.range e) _ []
      (fun f hf => hprevE f (List.mem_range.mp hf))]
    rw [List.singleton_append]
    rw [show epochsLoop step numBatches
        (e :: (List.range k).map ((e + 1) + ·))
        ([] ++ (List.range e).map (fun f => epochTotal step numBatches f / (numBatches : ℚ))) =
        (match batchLoop (step e) (List.range numBatches) 0 with
          | .error err =>
            (([] ++ (List.range e).map
              (fun f => epochTotal step numBatches f / (numBatches : ℚ))), [logMsg err])
          | .ok total =>
            epochsLoop step numBatches ((List.range k).map ((e + 1) + ·))
              (([] ++ (List.range e).map
                (fun f => epochTotal step numBatches f / (numBatches : ℚ))) ++
                  [total / (numBatches : ℚ)])) from rfl]
    rw [batchLoop_error (step e) numBatches i err hi herr hprevB 0]
    simp
  exact ⟨hmain, by rw [hmain]; simp⟩

/-- Witness for claim C1: two batches per epoch, three requested epochs, a
`RuntimeError` on batch 1 of epoch 1 — training returns the single completed
epoch's mean loss and the log line. -/
theorem c1_exception_aborts_training_witness :
    (1 : Nat) < 3 ∧ (1 : Nat) < 2 ∧
    (fun e i => if e = 1 ∧ i = 1 then
        (.error ⟨"RuntimeError", "CUDA error"⟩ : Except TrainError ℚ)
      else .ok 2) 1 1 = .error ⟨"RuntimeError", "CUDA error"⟩ ∧
    train_model
      (fun e i => if e = 1 ∧ i = 1 then
          (.error ⟨"RuntimeError", "CUDA error"⟩ : Except TrainError ℚ)
        else .ok 2) 2 3 =
      ((List.range 1).map (fun f =>
        epochTotal (fun e i => if e = 1 ∧ i = 1 then
            (.error ⟨"RuntimeError", "CUDA error"⟩ : Except TrainError ℚ)
          else .ok 2) 2 f / (2 : ℚ)), [logMsg ⟨"RuntimeError", "CUDA error"⟩]) := by
  refine ⟨by decide, by decide, rfl, ?_⟩
  exact (c1_exception_aborts_training
    (fun e i => if e = 1 ∧ i = 1 then
        (.error ⟨"RuntimeError", "CUDA error"⟩ : Except TrainError ℚ)
      else .ok 2) 2 3 1 1 ⟨"RuntimeError", "CUDA error"⟩
    (by decide) (by decide) rfl
    (fun j hj => by
      have hj0 : j = 0 := by omega
      subst hj0
      exact ⟨2, rfl⟩)
    (fun f hf j hj => by
      have hf0 : f = 0 := by omega
      subst hf0
      have : j = 0 ∨ j = 1 := by omega
      rcases this with h | h <;> subst h <;> exact ⟨2, rfl⟩)).1

/-! ## Label masking (claim C4) -/

/-- Claim C4: in every batch encoded by `__next__`, the `labels` field is the
padded, truncated tokenized summary ids with every position equal to the
tokenizer's pad id replaced by `-100` and every other position unchanged
(and the shape of the id matrix is preserved). -/
theorem c4_labels_pad_masked (tk : Tok) (batch : List Pair) (i j : Nat)
    (hi : i < (tk.tokenize (batch.map Prod.snd)).length)
    (hj : j < ((tk.tokenize (batch.map Prod.snd)).getD i []).length) :
    (encodeBatch tk batch).labels.length = (tk.tokenize (batch.map Prod.snd)).length ∧
    ((encodeBatch tk batch).labels.getD i []).length =
      ((tk.tokenize (batch.map Prod.snd)).getD i []).length ∧
    ((encodeBatch tk batch).labels.getD i []).getD j 0 =
      (if ((tk.tokenize (batch.map Prod.snd)).getD i []).getD j 0 = tk.pad_token_id
        then -100
        else ((tk.tokenize (batch.map Prod.snd)).getD i []).getD j 0) := by
  have hrow : (encodeBatch tk batch).labels.getD i [] =
      ((tk.tokenize (batch.map Prod.snd)).getD i []).map
        (fun x => if x = tk.pad_token_id then -100 else x) := by
    rw [show (encodeBatch tk batch).labels =
      maskPad tk.pad_token_id (tk.tokenize (batch.map Prod.snd)) from rfl]
    rw [maskPad, List.getD_eq_getElem _ _ (by simpa using hi),
      List.getD_eq_getElem _ _ hi]
    simp
  refine ⟨by simp [encodeBatch, maskPad], by rw [hrow, List.length_map], ?_⟩
  rw [hrow, List.getD_eq_getElem _ _ (by simpa using hj),
    List.getD_eq_getElem _ _ hj]
  simp

/-- Witness for claim C4 at a concrete input: one summary row `[5, 0, 0]`
with pad id `0` — position 1 is padding and becomes `-100`. -/
theorem c4_labels_pad_masked_witness :
    0 < ((Tok.mk (fun _ => [[5, 0, 0]]) 0 (fun _ => [[7]])).tokenize
      ([("t", "s")].map Prod.snd)).length ∧
    1 < (((Tok.mk (fun _ => [[5, 0, 0]]) 0 (fun _ => [[7]])).tokenize
      ([("t", "s")].map Prod.snd)).getD 0 []).length ∧
    ((encodeBatch (Tok.mk (fun _ => [[5, 0, 0]]) 0 (fun _ => [[7]])) [("t", "s")]).labels.getD 0 []).getD 1 0 =
      (if (((Tok.mk (fun _ => [[5, 0, 0]]) 0 (fun _ => [[7]])).tokenize
          ([("t", "s")].map Prod.snd)).getD 0 []).getD 1 0 =
          (Tok.mk (fun _ => [[5, 0, 0]]) 0 (fun _ => [[7]])).pad_token_id
        then -100
        else (((Tok.mk (fun _ => [[5, 0, 0]]) 0 (fun _ => [[7]])).tokenize
          ([("t", "s")].map Prod.snd)).getD 0 []).getD 1 0) :=
  ⟨by decide, by decide,
    (c4_labels_pad_masked (Tok.mk (fun _ => [[5, 0, 0]]) 0 (fun _ => [[7]]))
      [("t", "s")] 0 1 (by decide) (by decide)).2.2⟩

/-! ## Construction failure for non-positive batch sizes (claim C9) -/

/-- Claim C9 counterexample: with batch size `-1` (which is `≤ 0`) and an
empty pair list, `SummarizationDataset` construction does NOT raise —
`0 // -1 == 0` and `np.zeros(0)` succeeds, so a dataset object is
produced. -/
theorem c9_counterexample :
    isRaised (mkDatasetChecked [] (-1) false false) = false := rfl

/-- Claim C9 (amended): for a batch size `b ≤ 0`, construction fails fast
except in the single case of a negative batch size together with an empty
pair list, where an empty dataset is produced: construction does not raise
iff `b < 0` and the pair list is empty. -/
theorem c9_nonpositive_batch_size (pairs : List Pair) (b : Int) (uc sh : Bool)
    (hb : b ≤ 0) :
    isRaised (mkDatasetChecked pairs b uc sh) = false ↔ b < 0 ∧ pairs = [] := by
  rcases lt_or_eq_of_le hb with hneg | h0
  · obtain ⟨m, hm⟩ : ∃ m, b = Int.negSucc m := Int.eq_negSucc_of_lt_zero hneg
    subst hm
    cases pairs with
    | nil =>
      simp only [mkDatasetChecked, List.length_nil]
      norm_num [isRaised, Int.zero_fdiv, hneg]
    | cons p ps =>
      have hlt : Int.fdiv (((p :: ps).length : Nat) : Int) (Int.negSucc m) < 0 := by
        show Int.fdiv (Int.ofNat (ps.length + 1)) (Int.negSucc m) < 0
        exact Int.negSucc_lt_zero _
      simp only [mkDatasetChecked]
      rw [if_neg (by exact fun h => by simp at h), if_pos hlt]
      simp [isRaised]
  · subst h0
    simp [mkDatasetChecked, isRaised]

/-- Witness for the amended claim C9: batch size `-1`, empty pair list. -/
theorem c9_nonpositive_batch_size_witness :
    (-1 : Int) ≤ 0 ∧
    (isRaised (mkDatasetChecked [] (-1) false false) = false ↔
      (-1 : Int) < 0 ∧ ([] : List Pair) = []) :=
  ⟨by decide, c9_nonpositive_batch_size [] (-1) false false (by decide)⟩

/-! ## Shuffling and the global random source (claim C6) -/

/-- Claim C6 counterexample: the code seeds the single global `np.random`
state, not a dedicated per-dataset source.  The same dataset, constructed
with seed 5, is shuffled differently depending on whether another dataset
construction (`np.random.seed(6)`) happens between its construction and its
traversal — so batch orderings are not independent of other uses of
randomness in the program. -/
theorem c6_counterexample :
    ¬ ((constructAndShuffle [("a", "s"), ("a b", "t")] 1 (some 5) 0).1.text_batches =
      (iterOp
        (npPermutation (mkDataset [("a", "s"), ("a b", "t")] 1 false true).num_batches
          (npSeed (some 6) (npSeed (some 5) 0))).1
        (mkDataset [("a", "s"), ("a b", "t")] 1 false true)).text_batches) := by
  decide

/-- Claim C6 (amended): shuffling is driven by the global random source,
which construction re-seeds from the `seed` argument; consequently, when a
dataset's construction is immediately followed by its shuffled traversal
(no intervening use of the global source), a fixed seed determines the
ordering — two datasets constructed from the same pairs with the same seed
produce identical batch orderings, regardless of the ambient random state. -/
theorem c6_seed_reproducible (pairs : List Pair) (b s g g' : Nat) :
    (constructAndShuffle pairs b (some s) g).1 =
      (constructAndShuffle pairs b (some s) g').1 := by
  simp [constructAndShuffle, npSeed]

/-! ## `get_bertscore` mutates the stored reference summaries (claim C8) -/

/-- Claim C8 is violated by the code: `summaries = self.summaries` followed
by `summaries *= num_pipelines` multiplies the stored reference-summary list
in place.  Evaluated at a two-pipeline evaluator whose summaries were
already generated (so the generation pass plays no role), the call leaves
the stored reference summaries replicated — not unchanged. -/
theorem c8_reference_summaries_mutated :
    (get_bertscore (fun _ _ => [])
      { pipelines := [fun ts => ts, fun ts => ts]
        texts := ["t"]
        summaries := ["s"]
        generated_summaries := ["g1", "g2"] }).1.summaries = ["s", "s"] ∧
    (["s", "s"] : List String) ≠ ["s"] :=
  ⟨rfl, by decide⟩

/-! ## `get_bertscore` without prior generation (claim C10) -/

/-- Sum of a constant map. -/
theorem sum_map_const {α : Type} (l : List α) (c : Nat) :
    (l.map (fun _ => c)).sum = l.length * c := by
  induction l with
  | nil => simp
  | cons x xs ih => simp [ih, Nat.succ_mul, Nat.add_comm]

/-- `optionMap` succeeds when every element succeeds, and the results
inherit the elementwise property. -/
theorem optionMap_of_forall {α β : Type} (f : α → Option β) (Q : β → Prop) :
    ∀ l : List α, (∀ x ∈ l, ∃ y, f x = some y ∧ Q y) →
      ∃ ys, optionMap f l = some ys ∧ ∀ y ∈ ys, Q y
  | [], _ => ⟨[], rfl, by simp⟩
  | x :: l, h => by
    obtain ⟨y, hy, hQ⟩ := h x (by simp)
    obtain ⟨ys, hys, hQs⟩ :=
      optionMap_of_forall f Q l (fun z hz => h z (by simp [hz]))
    refine ⟨y :: ys, ?_, ?_⟩
    · simp [optionMap, hy, hys]
    · intro z hz
      rcases List.mem_cons.mp hz with rfl | hz2
      · exact hQ
      · exact hQs z hz2

/-- `metric.reshape((p, -1)).mean(dim=1)` succeeds with `p` row means when
the element count is a positive multiple of `p > 0`. -/
theorem reshapeMean_some (p : Nat) (metric : List ℚ) (N : Nat)
    (hp : p ≠ 0) (hN : N ≠ 0) (hlen : metric.length = p * N) :
    ∃ ms, reshapeMean p metric = some ms ∧ ms.length = p := by
  have hcond : ¬(p = 0 ∨ metric.length = 0 ∨ metric.length % p ≠ 0) := by
    push_neg
    exact ⟨hp, by rw [hlen]; exact Nat.mul_ne_zero hp hN,
      by rw [hlen]; simp [Nat.mul_mod_right]⟩
  rw [reshapeMean, if_neg hcond]
  exact ⟨_, rfl, by simp⟩

/-- Claim C10: calling `get_bertscore` with no summaries generated yet
triggers exactly one generation pass per registered pipeline (the
accumulated summaries become the pipelines' outputs, one block per pipeline,
in registration order) and the returned per-pipeline mean metrics each have
length equal to the number of pipelines.  Pipelines are assumed to honour
their contract (one output per input text); the scorer its contract (one
metric value per candidate/reference pair); texts and pipelines are
non-empty (with either empty, `torch.reshape((p, -1))` would raise). -/
theorem c10_bertscore_generates_once
    (score : List String → List String → List (List ℚ)) (ev : EvaluatorState)
    (hgen : ev.generated_summaries = [])
    (hpl : ∀ pl ∈ ev.pipelines, (pl ev.texts).length = ev.texts.length)
    (hscore : ∀ cands refs, ∀ m ∈ score cands refs, m.length = cands.length)
    (htexts : ev.texts ≠ []) (hpipes : ev.pipelines ≠ []) :
    (get_bertscore score ev).1.generated_summaries =
      (ev.pipelines.map (fun pl => pl ev.texts)).flatten ∧
    ∃ ms, (get_bertscore score ev).2 = some ms ∧
      ∀ m ∈ ms, m.length = ev.pipelines.length := by
  have hGlen : (ev.pipelines.map (fun pl => pl ev.texts)).flatten.length =
      ev.pipelines.length * ev.texts.length := by
    rw [List.length_flatten, List.map_map]
    have hmc : ev.pipelines.map (List.length ∘ fun pl => pl ev.texts) =
        ev.pipelines.map (fun _ => ev.texts.length) :=
      List.map_congr_left (fun pl hm => hpl pl hm)
    rw [hmc, sum_map_const]
  have hP : ev.pipelines.length ≠ 0 := by
    simpa using fun h => hpipes (List.eq_nil_of_length_eq_zero h)
  have hN : ev.texts.length ≠ 0 := by
    simpa using fun h => htexts (List.eq_nil_of_length_eq_zero h)
  constructor
  · simp [get_bertscore, generate_summaries, hgen]
  · obtain ⟨ys, hys, hQ⟩ := optionMap_of_forall
      (reshapeMean ev.pipelines.length) (fun m => m.length = ev.pipelines.length)
      (score ((ev.pipelines.map (fun pl => pl ev.texts)).flatten)
        (listIMul ev.summaries ev.pipelines.length))
      (by
        intro m hm
        have hml := hscore _ _ m hm
        exact reshapeMean_some ev.pipelines.length m ev.texts.length hP hN
          (by rw [hml, hGlen]))
    refine ⟨ys, ?_, hQ⟩
    simpa [get_bertscore, generate_summaries, hgen] using hys

/-- Witness for claim C10 at a concrete input: one identity pipeline, one
held-out text, a scorer returning one metric array of ones. -/
theorem c10_bertscore_generates_once_witness :
    (["t"] : List String) ≠ [] ∧
    ((get_bertscore (fun c _ => [c.map (fun _ => (1 : ℚ))])
        ⟨[fun ts => ts], ["t"], ["s"], []⟩).1.generated_summaries =
      (([fun ts => ts] : List (List String → List String)).map
        (fun pl => pl ["t"])).flatten ∧
    ∃ ms, (get_bertscore (fun c _ => [c.map (fun _ => (1 : ℚ))])
        ⟨[fun ts => ts], ["t"], ["s"], []⟩).2 = some ms ∧
      ∀ m ∈ ms,
        m.length = ([fun ts => ts] : List (List String → List String)).length) :=
  ⟨by decide,
    c10_bertscore_generates_once (fun c _ => [c.map (fun _ => (1 : ℚ))])
      ⟨[fun ts => ts], ["t"], ["s"], []⟩ rfl
      (by
        intro pl h
        rw [List.mem_singleton.mp h])
      (by
        intro cands refs m hm
        rw [List.mem_singleton.mp hm, List.length_map])
      (by decide) (by simp)⟩

/-! ## Shuffle/cache index correspondence (claim C2) -/

/-- `getD` after `set` at a different index. -/
theorem getD_set_ne (l : List α) (i j : Nat) (v dflt : α) (h : i ≠ j) :
    (l.set i v).getD j dflt = l.getD j dflt := by
  simp [List.getD_eq_getElem?_getD, List.getElem?_set_ne h]

/-- `getD` after `set` at the set index (in range). -/
theorem getD_set_self (l : List α) (i : Nat) (v dflt : α) (h : i < l.length) :
    (l.set i v).getD i dflt = v := by
  simp [List.getD_eq_getElem?_getD, List.getElem?_set_eq_of_lt v h]

/-- `getD` through `map some` (in range). -/
theorem getD_map_some (bl : List (List Pair)) (i : Nat) (h : i < bl.length) :
    (bl.map some).getD i none = some (bl.getD i []) := by
  rw [List.getD_eq_getElem _ _ (by simpa using h), List.getD_eq_getElem _ _ h,
    List.getElem_map]

/-- `getD` of a replicated list with the replicated element as default. -/
theorem getD_replicate_self (n i : Nat) (x : α) :
    (List.replicate n x).getD i x = x := by
  simp only [List.getD_eq_getElem?_getD, List.getElem?_replicate]
  split <;> simp

/-- Fancy indexing preserves the index list's length. -/
theorem permApply_length (dflt : α) (perm : List Nat) (l : List α) :
    (permApply dflt perm l).length = perm.length := by
  simp [permApply]

/-- Entry `j` of a fancy-indexed array is entry `perm[j]` of the original. -/
theorem permApply_getD (dflt : α) (perm : List Nat) (l : List α) (j : Nat)
    (hj : j < perm.length) :
    (permApply dflt perm l).getD j dflt = l.getD (perm.getD j 0) dflt := by
  rw [permApply, List.getD_eq_getElem _ _ (by simpa using hj), List.getElem_map,
    List.getD_eq_getElem _ _ hj]

/-- Claim C2: with caching enabled, (a) `__iter__` applies one and the same
permutation to the batch array and the cache array; (b) doing so preserves
the cache/batch index correspondence, with the logical batch list permuted
identically; (c) every `__next__` step preserves the correspondence; and
(d) the correspondence holds at construction.  (`g` is the list of logical
batch contents per slot, which the model retains even after the code drops
a raw batch on caching.) -/
theorem c2_cache_index_correspondence
    (enc : List Pair → Enc) (d : SummarizationDataset) (g : List (List Pair))
    (perm : List Nat) (pairs : List Pair) (b : Nat) (sh : Bool)
    (hperm : perm.length = g.length) (hmem : ∀ x ∈ perm, x < g.length)
    (hshuffle : d.shuffle = true) (hinv : CacheInv enc d g) :
    ((iterOp perm d).text_batches = permApply none perm d.text_batches ∧
      (iterOp perm d).cached = d.cached.map (permApply none perm)) ∧
    CacheInv enc (iterOp perm d) (permApply [] perm g) ∧
    (∀ e d1 k, nextOp enc d = some (e, d1, k) → CacheInv enc d1 g) ∧
    CacheInv enc (mkDataset pairs b true sh) (batchesOf (sortPairs pairs) b) := by
  obtain ⟨hlen, hnb, hcache⟩ := hinv
  refine ⟨⟨by simp [iterOp, hshuffle], by simp [iterOp, hshuffle]⟩, ?_, ?_, ?_⟩
  · -- (b) shuffling preserves the invariant
    refine ⟨?_, ?_, ?_⟩
    · simp [iterOp, hshuffle, permApply_length]
    · simp [iterOp, hshuffle, permApply_length, hnb, hperm]
    · intro c' hc'
      rw [show (iterOp perm d).cached = d.cached.map (permApply none perm) from
        by simp [iterOp, hshuffle]] at hc'
      obtain ⟨c, hc, rfl⟩ := Option.map_eq_some'.mp hc'
      obtain ⟨hclen, hslots⟩ := hcache c hc
      refine ⟨by simp [permApply_length, hperm], ?_⟩
      intro i hi
      have hi' : i < perm.length := by
        rw [permApply_length] at hi; exact hi
      have hpj : perm.getD i 0 ∈ perm := by
        rw [List.getD_eq_getElem _ _ hi']
        exact List.getElem_mem _
      have hpl : perm.getD i 0 < g.length := hmem _ hpj
      have hs := hslots (perm.getD i 0) hpl
      rw [show (iterOp perm d).text_batches = permApply none perm d.text_batches from
        by simp [iterOp, hshuffle]]
      unfold SlotOk at hs ⊢
      rw [permApply_getD _ _ _ _ hi', permApply_getD _ _ _ _ hi',
        permApply_getD _ _ _ _ hi']
      exact hs
  · -- (c) `__next__` preserves the invariant
    intro e d1 k hnext
    rw [nextOp] at hnext
    split at hnext
    · exact absurd hnext (by simp)
    · rename_i it _hit
      split at hnext
      · exact absurd hnext (by simp)
      · split at hnext
        case _ c hcc =>
          obtain ⟨hclen, hslots⟩ := hcache c hcc
          split at hnext
          case _ e0 hslot =>
            simp only [Option.some.injEq, Prod.mk.injEq] at hnext
            obtain ⟨rfl, rfl, rfl⟩ := hnext
            exact ⟨hlen, hnb, fun c2 hc2 => hcache c2 hc2⟩
          case _ hslot =>
            simp only [Option.some.injEq, Prod.mk.injEq] at hnext
            obtain ⟨rfl, rfl, rfl⟩ := hnext
            by_cases hrange : it < g.length
            · have hs := hslots it hrange
              unfold SlotOk at hs
              rcases hs with ⟨_, htb⟩ | ⟨hcs, _⟩
              · -- cache empty at `it`, raw batch present: it gets encoded and cached
                refine ⟨by simp [hlen], by simp [hnb], ?_⟩
                intro c2 hc2
                obtain rfl : c2 = c.set it
                    (some (enc ((d.text_batches.getD it none).getD []))) :=
                  (Option.some.inj hc2).symm
                refine ⟨by simp [hclen], ?_⟩
                intro i hi
                unfold SlotOk
                by_cases hieq : i = it
                · subst hieq
                  right
                  constructor
                  · rw [getD_set_self _ _ _ _ (by rw [hclen]; exact hi), htb]
                    simp
                  · simp only
                    rw [getD_set_self _ _ _ _ (by rw [hlen]; exact hi)]
                · have h1 : (c.set it
                      (some (enc ((d.text_batches.getD it none).getD [])))).getD i none =
                        c.getD i none :=
                    getD_set_ne _ _ _ _ _ (fun h => hieq h.symm)
                  have h2 : ((d.text_batches.set it none).getD i none) =
                      d.text_batches.getD i none :=
                    getD_set_ne _ _ _ _ _ (fun h => hieq h.symm)
                  have hs2 := hslots i hi
                  unfold SlotOk at hs2
                  simp only [h1, h2]
                  exact hs2
              · rw [hslot] at hcs; exact absurd hcs (by simp)
            · -- cursor out of range: both `set` operations are no-ops
              have hsetc : c.set it (some (enc ((d.text_batches.getD it none).getD []))) = c :=
                List.set_eq_of_length_le (by rw [hclen]; omega)
              have hsett : d.text_batches.set it none = d.text_batches :=
                List.set_eq_of_length_le (by rw [hlen]; omega)
              refine ⟨by simp [hsett, hlen], by simp [hnb], ?_⟩
              intro c2 hc2
              rw [hsetc] at hc2
              obtain rfl : c2 = c := (Option.some.inj hc2).symm
              refine ⟨hclen, ?_⟩
              intro i hi
              have hs2 := hslots i hi
              unfold SlotOk at hs2 ⊢
              simp only [hsett]
              exact hs2
        case _ hcc =>
          simp only [Option.some.injEq, Prod.mk.injEq] at hnext
          obtain ⟨rfl, rfl, rfl⟩ := hnext
          exact ⟨hlen, hnb, fun c2 hc2 => hcache c2 hc2⟩
  · -- (d) the invariant holds at construction with caching enabled
    refine ⟨by simp [mkDataset], by simp [mkDataset, batchesOf], ?_⟩
    intro c hc
    rw [show (mkDataset pairs b true sh).cached =
      some (List.replicate ((sortPairs pairs).length / b) none) from by
        simp [mkDataset]] at hc
    obtain rfl := (Option.some.inj hc).symm
    constructor
    · simp [batchesOf]
    · intro i hi
      left
      constructor
      · exact getD_replicate_self _ _ _
      · rw [show (mkDataset pairs b true sh).text_batches =
          (batchesOf (sortPairs pairs) b).map some from rfl]
        exact getD_map_some _ _ hi

/-- Witness for claim C2 at a concrete input: two one-pair batches, the
swap permutation, a constant encoder — after the shuffle the invariant holds
for the identically permuted logical batch list. -/
theorem c2_cache_index_correspondence_witness :
    CacheInv (fun _ => ⟨[[0]], [[0]]⟩)
      (iterOp [1, 0] (mkDataset [("a", "s"), ("a b", "t")] 1 true true))
      (permApply [] [1, 0] (batchesOf (sortPairs [("a", "s"), ("a b", "t")]) 1)) := by
  refine (c2_cache_index_correspondence (fun _ => ⟨[[0]], [[0]]⟩)
    (mkDataset [("a", "s"), ("a b", "t")] 1 true true)
    (batchesOf (sortPairs [("a", "s"), ("a b", "t")]) 1)
    [1, 0] [] 1 false
    (by decide) (by decide) (by decide) ?_).2.1
  refine ⟨by decide, by decide, ?_⟩
  intro c hc
  rw [show (mkDataset [("a", "s"), ("a b", "t")] 1 true true).cached =
    some [none, none] from rfl] at hc
  obtain rfl := Option.some.inj hc
  exact ⟨by decide, by decide⟩

/-! ## Cached second traversal (claim C5) -/

/-- Setting the element right after a prefix. -/
theorem set_append_at (l1 l2 : List α) (x v : α) (i : Nat) (h : i = l1.length) :
    (l1 ++ x :: l2).set i v = l1 ++ v :: l2 := by
  subst h
  simp [List.set_append]

/-- One `__next__` step of a cached, unshuffled traversal at cursor `j`:
a cache miss that encodes batch `j`, caches it and drops the raw batch. -/
theorem nextOp_midState (enc : List Pair → Enc) (bl : List (List Pair)) (j : Nat)
    (hjn : j < bl.length) :
    nextOp enc (midState enc bl j) =
      some (enc bl[j], midState enc bl (j + 1), 1) := by
  have htake : ((bl.take j).map (fun x => some (enc x))).length = j := by
    simp [Nat.min_eq_left (Nat.le_of_lt hjn)]
  have hdropj : bl.drop j = bl[j] :: bl.drop (j + 1) := List.drop_eq_getElem_cons hjn
  have hcget : (((bl.take j).map (fun x => some (enc x))) ++
      List.replicate (bl.length - j) none).getD j none = none := by
    rw [List.getD_append_right _ _ _ _ (by rw [htake])]
    rw [htake, Nat.sub_self]
    exact getD_replicate_self _ _ _
  have htbget : (List.replicate j (none : Option (List Pair)) ++
      (bl.drop j).map some).getD j none = some bl[j] := by
    rw [List.getD_append_right _ _ _ _ (by simp)]
    rw [List.length_replicate, Nat.sub_self, hdropj, List.map_cons]
    rfl
  have hsetc : (((bl.take j).map (fun x => some (enc x))) ++
      List.replicate (bl.length - j) none).set j (some (enc bl[j])) =
      ((bl.take (j + 1)).map (fun x => some (enc x))) ++
        List.replicate (bl.length - (j + 1)) none := by
    rw [show bl.length - j = (bl.length - (j + 1)) + 1 from by omega,
      List.replicate_succ]
    rw [set_append_at _ _ _ _ _ htake.symm]
    rw [List.take_succ, List.getElem?_eq_getElem hjn]
    rw [List.map_append, List.append_assoc]
    rfl
  have hsett : (List.replicate j (none : Option (List Pair)) ++
      (bl.drop j).map some).set j none =
      List.replicate (j + 1) (none : Option (List Pair)) ++
        (bl.drop (j + 1)).map some := by
    rw [hdropj, List.map_cons, set_append_at _ _ _ _ _ (by simp),
      List.replicate_succ']
    simp
  rw [nextOp]
  simp only [midState]
  rw [if_neg (by omega : ¬ j = bl.length)]
  simp only [hcget, htbget, Option.getD_some, hsetc, hsett]

/-- A cached, unshuffled traversal from cursor `j` encodes and caches each
remaining batch in order (one encoder invocation per remaining batch) and
ends in the fully cached state. -/
theorem goTraverse_fill (enc : List Pair → Enc) (bl : List (List Pair)) :
    ∀ m j, j + m = bl.length →
      goTraverse enc m (midState enc bl j) =
        ((bl.drop j).map enc, midState enc bl bl.length, m)
  | 0, j, h => by
    have hj : j = bl.length := by omega
    subst hj
    simp [goTraverse, List.drop_length]
  | m + 1, j, h => by
    have hjn : j < bl.length := by omega
    have hdropj : bl.drop j = bl[j] :: bl.drop (j + 1) := List.drop_eq_getElem_cons hjn
    rw [goTraverse, nextOp_midState enc bl j hjn]
    simp only [goTraverse_fill enc bl m (j + 1) (by omega), hdropj]
    rw [List.map_cons, Nat.add_comm 1 m]

/-- One `__next__` step on the fully cached state at cursor `j`: a cache hit
returning the cached encoding, with no encoder invocation. -/
theorem nextOp_hitState (enc : List Pair → Enc) (bl : List (List Pair)) (j : Nat)
    (hjn : j < bl.length) :
    nextOp enc { midState enc bl bl.length with it := some j } =
      some (enc bl[j], { midState enc bl bl.length with it := some (j + 1) }, 0) := by
  have hcget : (((bl.take bl.length).map (fun x => some (enc x))) ++
      List.replicate (bl.length - bl.length) none).getD j none = some (enc bl[j]) := by
    rw [List.take_length, Nat.sub_self, List.replicate_zero, List.append_nil]
    rw [List.getD_eq_getElem _ _ (by simpa using hjn), List.getElem_map]
  rw [nextOp]
  simp only [midState]
  rw [if_neg (by omega : ¬ j = bl.length)]
  simp only [hcget]

/-- A traversal of the fully cached state returns every cached encoding in
order without invoking the encoder at all. -/
theorem goTraverse_hit (enc : List Pair → Enc) (bl : List (List Pair)) :
    ∀ m j, j + m = bl.length →
      goTraverse enc m { midState enc bl bl.length with it := some j } =
        ((bl.drop j).map enc,
          { midState enc bl bl.length with it := some bl.length }, 0)
  | 0, j, h => by
    have hj : j = bl.length := by omega
    subst hj
    simp [goTraverse, List.drop_length]
  | m + 1, j, h => by
    have hjn : j < bl.length := by omega
    have hdropj : bl.drop j = bl[j] :: bl.drop (j + 1) := List.drop_eq_getElem_cons hjn
    rw [goTraverse, nextOp_hitState enc bl j hjn]
    simp only [goTraverse_hit enc bl m (j + 1) (by omega), hdropj]
    rw [List.map_cons]

/-- Claim C5: for a dataset constructed with caching enabled and shuffling
disabled, the second full traversal returns, position by position, encoded
batches equal to those of the first traversal, and the encoder/tokenizer is
not invoked at all during it — every step is a cache hit. -/
theorem c5_second_traversal_cached (pairs : List Pair) (b : Nat)
    (enc : List Pair → Enc) :
    (traverse enc [] ((traverse enc [] (mkDataset pairs b true false)).2.1)).1 =
      (traverse enc [] (mkDataset pairs b true false)).1 ∧
    (traverse enc [] ((traverse enc [] (mkDataset pairs b true false)).2.1)).2.2 = 0 := by
  have hnb : (mkDataset pairs b true false).num_batches =
      (batchesOf (sortPairs pairs) b).length := by
    simp [mkDataset, batchesOf]
  have hiter1 : iterOp [] (mkDataset pairs b true false) =
      midState enc (batchesOf (sortPairs pairs) b) 0 := by
    simp [iterOp, mkDataset, midState, batchesOf]
  have htrav1 : traverse enc [] (mkDataset pairs b true false) =
      ((batchesOf (sortPairs pairs) b).map enc,
        midState enc (batchesOf (sortPairs pairs) b)
          (batchesOf (sortPairs pairs) b).length,
        (batchesOf (sortPairs pairs) b).length) := by
    rw [traverse, hiter1, hnb]
    have h := goTraverse_fill enc (batchesOf (sortPairs pairs) b)
      (batchesOf (sortPairs pairs) b).length 0 (by omega)
    simpa using h
  have hiter2 : iterOp []
      (midState enc (batchesOf (sortPairs pairs) b)
        (batchesOf (sortPairs pairs) b).length) =
      { midState enc (batchesOf (sortPairs pairs) b)
          (batchesOf (sortPairs pairs) b).length with it := some 0 } := by
    simp [iterOp, midState]
  have htrav2 : traverse enc []
      (midState enc (batchesOf (sortPairs pairs) b)
        (batchesOf (sortPairs pairs) b).length) =
      ((batchesOf (sortPairs pairs) b).map enc,
        { midState enc (batchesOf (sortPairs pairs) b)
            (batchesOf (sortPairs pairs) b).length with
          it := some (batchesOf (sortPairs pairs) b).length }, 0) := by
    rw [traverse, hiter2]
    have h := goTraverse_hit enc (batchesOf (sortPairs pairs) b)
      (batchesOf (sortPairs pairs) b).length 0 (by omega)
    simpa using h
  rw [htrav1]
  show (traverse enc []
      (midState enc (batchesOf (sortPairs pairs) b)
        (batchesOf (sortPairs pairs) b).length)).1 =
      (batchesOf (sortPairs pairs) b).map enc ∧
    (traverse enc []
      (midState enc (batchesOf (sortPairs pairs) b)
        (batchesOf (sortPairs pairs) b).length)).2.2 = 0
  rw [htrav2]
  exact ⟨rfl, rfl⟩

end LDS
